import Mathlib

/-!
Verification of the request-scoped dependency resolution engine described by
the design specification of the Agent-Native-Cloud-Development repository,
together with shallow embeddings of the concrete FastAPI handler functions
present in the repository sources.

The resolver core (ProviderRegistry, ResolutionContext, Resolver, ScopeStore,
LifecycleManager) is the dependency-injection machinery the repository uses
through the FastAPI framework; its implementation is not part of the
repository sources, only its callers are.  Those components are therefore
modelled from the specification, as marked on each definition.  Handler-level
functions (depfunc1, depfunc2, get_main, chat, get_admin_data) are translated
directly from the repository sources.
-/

/-- Modelled from the spec: opaque provider identifier (section 3). -/
abbrev ProviderID := Nat

/-- Modelled from the spec: a resolved dependency value. -/
abbrev Value := Int

/-- Modelled from the spec: a zero-argument teardown operation, represented by
an opaque token so that execution order can be observed. -/
abbrev TeardownAction := Nat

/-- Modelled from the spec: the provider kind tag (section 3). -/
inductive ProviderKind where
  | simple
  | cached
  | yielding

/-- Modelled from the spec: the two ways a compute step can fail, a generic
runtime failure or an authorization rejection (sections 3 and 4.5). -/
inductive ComputeError where
  | failure (cause : String)
  | authReject (reason : String)

/-- Modelled from the spec: a provider definition with its declared ordered
dependencies, kind, and compute step.  A Yielding provider returns a value
together with a teardown action; other kinds return none for the teardown. -/
structure ProviderDefinition where
  deps : List ProviderID
  kind : ProviderKind
  compute : List Value → Except ComputeError (Value × Option TeardownAction)

/-- Modelled from the spec: the provider registry is pure metadata, a mapping
from ProviderID to ProviderDefinition. -/
abbrev ProviderRegistry := List (ProviderID × ProviderDefinition)

/-- Association-list lookup returning the first binding of a key. -/
def alookup {α : Type} : List (Nat × α) → Nat → Option α
  | [], _ => none
  | (k, v) :: t, k' => if k = k' then some v else alookup t k'

/-- Modelled from the spec: registration errors (section 4.1). -/
inductive RegistrationError where
  | duplicateProvider (id : ProviderID)

/-- Modelled from the spec: register fails with DuplicateProvider when the id
is already bound; it never overwrites an existing definition (section 4.1). -/
def register (reg : ProviderRegistry) (id : ProviderID) (d : ProviderDefinition) :
    Except RegistrationError ProviderRegistry :=
  match alookup reg id with
  | some _ => .error (.duplicateProvider id)
  | none => .ok (reg ++ [(id, d)])

/-- Modelled from the spec: the per-request resolution context with its value
cache, cycle-detection set, and teardown stack (section 3).  The most recently
pushed teardown action is at the head of the stack. -/
structure ResolutionContext where
  resolved : List (ProviderID × Value)
  inProgress : List ProviderID
  teardownStack : List TeardownAction

/-- Modelled from the spec: a fresh resolution context for a new request. -/
def emptyContext : ResolutionContext := ⟨[], [], []⟩

/-- Modelled from the spec: LifecycleManager.acquire appends an action onto
the teardown stack of the context (section 4.3). -/
def acquire (ctx : ResolutionContext) (a : TeardownAction) : ResolutionContext :=
  { ctx with teardownStack := a :: ctx.teardownStack }

/-- Modelled from the spec: LifecycleManager.unwind executes every pushed
action from most recently pushed to least recently pushed and empties the
stack; the first component is the list of executed actions in execution
order (section 4.3). -/
def unwind (ctx : ResolutionContext) : List TeardownAction × ResolutionContext :=
  (ctx.teardownStack, { ctx with teardownStack := [] })

/-- Modelled from the spec: the process-wide ScopeStore backing Cached
providers (sections 3 and 4.4). -/
abbrev ScopeStore := List (ProviderID × Value)

/-- Modelled from the spec: ScopeStore.getOrCompute under the mutual-exclusion
discipline; the third component records whether the compute function was
executed by this call (section 4.4). -/
def getOrCompute (store : ScopeStore) (id : ProviderID) (computeFn : Unit → Value) :
    Value × ScopeStore × Bool :=
  match alookup store id with
  | some v => (v, store, false)
  | none => (computeFn (), store ++ [(id, computeFn ())], true)

/-- Modelled from the spec: the resolution error taxonomy (section 3), with an
extra tag for a request of an unregistered id. -/
inductive ResolutionError where
  | cycleDetected (path : List ProviderID)
  | providerFailed (id : ProviderID) (cause : String)
  | authRejected (id : ProviderID) (reason : String)
  | unknownProvider (id : ProviderID)

/-- Modelled from the spec: tag a compute failure with the originating
provider, keeping authorization rejection distinct (sections 4.2 and 4.5). -/
def tagError (id : ProviderID) : ComputeError → ResolutionError
  | .failure c => .providerFailed id c
  | .authReject r => .authRejected id r

/-- Modelled from the spec: the state threaded through a resolution: the
per-request context, the process-wide store, and a log of the providers whose
compute step was executed, in execution order. -/
structure ResolveState where
  ctx : ResolutionContext
  store : ScopeStore
  log : List ProviderID

/-- Modelled from the spec: cached value of a provider in the context. -/
def lookupResolved (ctx : ResolutionContext) (id : ProviderID) : Option Value :=
  alookup ctx.resolved id

/-- Modelled from the spec: mark an id as in progress for cycle detection. -/
def markInProgress (id : ProviderID) (s : ResolveState) : ResolveState :=
  { s with ctx := { s.ctx with inProgress := id :: s.ctx.inProgress } }

/-- Modelled from the spec: on success store the value in the context cache
and unmark the id (step 7 of section 4.2). -/
def finishOk (id : ProviderID) (v : Value) (s : ResolveState) : ResolveState :=
  { s with ctx := { s.ctx with
      resolved := s.ctx.resolved ++ [(id, v)],
      inProgress := s.ctx.inProgress.erase id } }

/-- Modelled from the spec: on provider failure unmark the id before
propagating the error (step 6 of section 4.2). -/
def unmarkFail (id : ProviderID) (s : ResolveState) : ResolveState :=
  { s with ctx := { s.ctx with inProgress := s.ctx.inProgress.erase id } }

/-- Modelled from the spec: push the teardown action bound by a successful
setup onto the teardown stack before returning control (step 5 of
section 4.2), through LifecycleManager.acquire. -/
def pushTeardown (td : Option TeardownAction) (ctx : ResolutionContext) : ResolutionContext :=
  match td with
  | some t => acquire ctx t
  | none => ctx

/-- Modelled from the spec: run the compute step of a provider whose
dependencies are already resolved.  A Cached provider consults the ScopeStore
first and stores its value on a miss (step 4 of section 4.2); a teardown bound
by the compute step is pushed immediately, and the executed compute step is
recorded in the log. -/
def computeStep (id : ProviderID) (d : ProviderDefinition) (vs : List Value)
    (s : ResolveState) : Except ResolutionError Value × ResolveState :=
  match d.kind with
  | .cached =>
    match alookup s.store id with
    | some v => (.ok v, s)
    | none =>
      match d.compute vs with
      | .error e => (.error (tagError id e), unmarkFail id s)
      | .ok (v, td) =>
        (.ok v, { s with
          ctx := pushTeardown td s.ctx,
          store := s.store ++ [(id, v)],
          log := s.log ++ [id] })
  | _ =>
    match d.compute vs with
    | .error e => (.error (tagError id e), unmarkFail id s)
    | .ok (v, td) =>
      (.ok v, { s with
        ctx := pushTeardown td s.ctx,
        log := s.log ++ [id] })

/-- Modelled from the spec: depth-first resolution of a list of targets
(section 4.2).  Step order per target: consult the per-context cache, detect
cycles through the inProgress set, look the provider up in the registry,
resolve its declared dependencies in declaration order, run the compute step,
then store the value and unmark the id.  The fuel argument bounds the
recursion depth; running out of fuel yields none. -/
def resolveMany (reg : ProviderRegistry) : Nat → List ProviderID → ResolveState →
    Option (Except ResolutionError (List Value) × ResolveState)
  | _, [], s => some (.ok [], s)
  | 0, _ :: _, _ => none
  | fuel + 1, id :: rest, s =>
    match lookupResolved s.ctx id with
    | some v =>
      match resolveMany reg fuel rest s with
      | none => none
      | some (.error e, s1) => some (.error e, s1)
      | some (.ok vs, s1) => some (.ok (v :: vs), s1)
    | none =>
      if id ∈ s.ctx.inProgress then
        some (.error (.cycleDetected (id :: s.ctx.inProgress)), s)
      else
        match alookup reg id with
        | none => some (.error (.unknownProvider id), s)
        | some d =>
          match resolveMany reg fuel d.deps (markInProgress id s) with
          | none => none
          | some (.error e, s2) => some (.error e, s2)
          | some (.ok vs, s2) =>
            match computeStep id d vs s2 with
            | (.error e, s3) => some (.error e, s3)
            | (.ok v, s3) =>
              match resolveMany reg fuel rest (finishOk id v s3) with
              | none => none
              | some (.error e, s4) => some (.error e, s4)
              | some (.ok ws, s4) => some (.ok (v :: ws), s4)

/-- Registered identifiers of a registry. -/
def keys (reg : ProviderRegistry) : List ProviderID := reg.map Prod.fst

/-- Largest declared dependency list length over the registry. -/
def maxDeps (reg : ProviderRegistry) : Nat :=
  reg.foldr (fun p m => max p.2.deps.length m) 0

/-- Fuel that always suffices for a full resolution of the targets. -/
def fuelBound (reg : ProviderRegistry) (targets : List ProviderID) : Nat :=
  targets.length + reg.length * (maxDeps reg + 1)

/-- Fresh resolution state for a new request with an empty store. -/
def initState : ResolveState := ⟨emptyContext, [], []⟩

/-- Modelled from the spec: top-level resolve entry point for one request,
with the sufficient fuel bound supplied (section 4.2). -/
def resolve (reg : ProviderRegistry) (targets : List ProviderID) :
    Option (Except ResolutionError (List Value) × ResolveState) :=
  resolveMany reg (fuelBound reg targets) targets initState

/-- Translated from src/FastAPI/dependency_injection/main.py: depfunc1 adds
one to the path parameter num. -/
def depfunc1 (num : Int) : Int := num + 1

/-- Translated from src/FastAPI/dependency_injection/main.py: depfunc2 adds
two to the path parameter num. -/
def depfunc2 (num : Int) : Int := num + 2

/-- Translated from src/FastAPI/dependency_injection/main.py: the get_main
handler returns the total num + num1 + num2. -/
def get_main (num num1 num2 : Int) : Int := num + num1 + num2

/-- Translated from src/FastAPI/fastapi_pydantic/src/fastapi_pydantic/main.py:
one chat message with a role and a content field. -/
structure MessageInput where
  role : String
  content : String

/-- Translated from src/FastAPI/fastapi_pydantic/src/fastapi_pydantic/main.py:
the request body of the chat endpoint. -/
structure ClassInput where
  message : List MessageInput

/-- Response shape of the chat endpoint, a single message field. -/
structure ChatResponse where
  message : String
deriving DecidableEq

/-- Translated from src/FastAPI/fastapi_pydantic/src/fastapi_pydantic/main.py:
the chat endpoint prints its input and returns the constant Hello World
message; the printing has no effect on the returned value. -/
def chat (messages : ClassInput) : ChatResponse :=
  ⟨"Hello World"⟩

/-- Translated from src/FastAPI/zero-to-hero/main.py: get_admin_data raises
401 when no token is supplied, 403 when the token is not admin-secret, and
returns the admin payload message otherwise.  Errors are status code and
detail pairs. -/
def get_admin_data (x_token : Option String) : Except (Nat × String) String :=
  match x_token with
  | none => .error (401, "Authentication token required")
  | some t =>
    if t ≠ "admin-secret" then .error (403, "Access forbidden: Invalid token")
    else .ok "Admin data accessed successfully"

/-- Simple leaf provider used in witness scenarios. -/
def dSimple : ProviderDefinition := ⟨[], .simple, fun _ => .ok (0, none)⟩

/-- Cached leaf provider returning a fixed value, mirroring get_settings in
src/FastAPI/dependency_injection/main.py: a Cached provider with no
dependencies whose compute step builds the settings value. -/
def cachedLeaf (v : Value) : ProviderDefinition := ⟨[], .cached, fun _ => .ok (v, none)⟩

/-- Modelled from the spec: N requests resolved one after the other under the
ScopeStore mutual-exclusion discipline; each request gets a fresh
ResolutionContext while the store and the process-wide compute log are
threaded through (sections 4.4 and 5). -/
def runContexts (reg : ProviderRegistry) (fuel : Nat) (targets : List ProviderID) :
    Nat → ScopeStore → List ProviderID →
    List (Option (Except ResolutionError (List Value))) × ScopeStore × List ProviderID
  | 0, store, log => ([], store, log)
  | n + 1, store, log =>
    match resolveMany reg fuel targets ⟨emptyContext, store, log⟩ with
    | none =>
      let r := runContexts reg fuel targets n store log
      (none :: r.1, r.2)
    | some (out, s1) =>
      let r := runContexts reg fuel targets n s1.store s1.log
      (some out :: r.1, r.2)

/-- Two-provider registry in which provider 0 depends on provider 1 and
provider 1 depends on provider 0. -/
def cycleReg : ProviderRegistry :=
  [(0, ⟨[1], .simple, fun _ => .ok (0, none)⟩),
   (1, ⟨[0], .simple, fun _ => .ok (0, none)⟩)]

/-- Registry with a Yielding provider (id 10, teardown token 99) mirroring
get_temp_resource in src/FastAPI/zero-to-hero/dep.py, a failing provider
(id 11), and a target (id 12) depending on both in that order. -/
def yieldReg : ProviderRegistry :=
  [(10, ⟨[], .yielding, fun _ => .ok (1, some 99)⟩),
   (11, ⟨[], .simple, fun _ => .error (.failure "boom")⟩),
   (12, ⟨[10, 11], .simple, fun vs => .ok (vs.getD 0 0, none)⟩)]

/-- Registry mirroring src/FastAPI/dependency_injection/main.py: provider 0
is the path parameter num with value 5, provider 1 computes depfunc1,
provider 2 computes depfunc2, provider 3 is the get_main handler combining
num, num1 and num2. -/
def diReg : ProviderRegistry :=
  [(0, ⟨[], .simple, fun _ => .ok (5, none)⟩),
   (1, ⟨[0], .simple, fun vs => .ok (depfunc1 (vs.getD 0 0), none)⟩),
   (2, ⟨[0], .simple, fun vs => .ok (depfunc2 (vs.getD 0 0), none)⟩),
   (3, ⟨[0, 1, 2], .simple,
      fun vs => .ok (get_main (vs.getD 0 0) (vs.getD 1 0) (vs.getD 2 0), none)⟩)]

/-- Registry mirroring get_admin_data in src/FastAPI/zero-to-hero/main.py:
provider 20 is the header-equivalent leaf whose value 0 encodes an absent
token, provider 21 is the auth gate raising an authorization rejection on an
absent token and passing the value through otherwise, provider 22 is the
protected target depending on the gate. -/
def authReg : ProviderRegistry :=
  [(20, ⟨[], .simple, fun _ => .ok (0, none)⟩),
   (21, ⟨[20], .simple, fun vs =>
      if vs.getD 0 0 = 0 then .error (.authReject "Authentication token required")
      else .ok (vs.getD 0 0, none)⟩),
   (22, ⟨[21], .simple, fun vs => .ok (vs.getD 0 0, none)⟩)]

/-- Resolution state holding one already-resolved entry, for witnesses. -/
def w1State : ResolveState := ⟨⟨[(7, 42)], [], []⟩, [], []⟩

/-- Resolution state with provider 3 marked in progress, for witnesses. -/
def w4State : ResolveState := ⟨⟨[], [3], []⟩, [], []⟩

lemma alookup_append_left {α : Type} {l l2 : List (Nat × α)} {k : Nat} {v : α}
    (h : alookup l k = some v) : alookup (l ++ l2) k = some v := by
  induction l with
  | nil => simp [alookup] at h
  | cons p t ih =>
    obtain ⟨pk, pv⟩ := p
    by_cases hk : pk = k
    · subst hk
      simp [alookup] at h ⊢
      exact h
    · simp [alookup, hk] at h ⊢
      exact ih h

lemma alookup_append_right {α : Type} {l : List (Nat × α)} {k : Nat}
    (h : alookup l k = none) (l2 : List (Nat × α)) :
    alookup (l ++ l2) k = alookup l2 k := by
  induction l with
  | nil => simp
  | cons p t ih =>
    obtain ⟨pk, pv⟩ := p
    by_cases hk : pk = k
    · subst hk
      simp [alookup] at h
    · simp [alookup, hk] at h ⊢
      exact ih h

lemma alookup_singleton_same {α : Type} {k : Nat} {v : α} :
    alookup [(k, v)] k = some v := by
  simp [alookup]

lemma alookup_singleton_ne {α : Type} {k k' : Nat} {v : α} (h : k ≠ k') :
    alookup [(k, v)] k' = none := by
  simp [alookup, h]

lemma alookup_mem_keys {α : Type} {l : List (Nat × α)} {k : Nat} {v : α}
    (h : alookup l k = some v) : k ∈ l.map Prod.fst := by
  induction l with
  | nil => simp [alookup] at h
  | cons p t ih =>
    obtain ⟨pk, pv⟩ := p
    by_cases hk : pk = k
    · subst hk
      simp
    · simp [alookup, hk] at h
      simp [ih h]

lemma alookup_deps_le_maxDeps {reg : ProviderRegistry} {id : ProviderID}
    {d : ProviderDefinition} (h : alookup reg id = some d) :
    d.deps.length ≤ maxDeps reg := by
  induction reg with
  | nil => simp [alookup] at h
  | cons p t ih =>
    obtain ⟨pk, pd⟩ := p
    by_cases hk : pk = id
    · subst hk
      simp [alookup] at h
      subst h
      simp [maxDeps]
    · simp [alookup, hk] at h
      have := ih h
      simp [maxDeps] at this ⊢
      omega

lemma pushTeardown_resolved (td : Option TeardownAction) (ctx : ResolutionContext) :
    (pushTeardown td ctx).resolved = ctx.resolved := by
  cases td <;> rfl

lemma pushTeardown_inProgress (td : Option TeardownAction) (ctx : ResolutionContext) :
    (pushTeardown td ctx).inProgress = ctx.inProgress := by
  cases td <;> rfl

lemma pushTeardown_stack (td : Option TeardownAction) (ctx : ResolutionContext) :
    ∃ pre, (pushTeardown td ctx).teardownStack = pre ++ ctx.teardownStack := by
  cases td with
  | none => exact ⟨[], rfl⟩
  | some t => exact ⟨[t], rfl⟩

lemma computeStep_state (id : ProviderID) (d : ProviderDefinition) (vs : List Value)
    (s : ResolveState) :
    (computeStep id d vs s).2.ctx.resolved = s.ctx.resolved ∧
    (∃ pre, (computeStep id d vs s).2.ctx.teardownStack = pre ++ s.ctx.teardownStack) ∧
    (∃ t, (computeStep id d vs s).2.log = s.log ++ t ∧
      (∀ j, j ∈ t → j = id) ∧ t.length ≤ 1) ∧
    (∀ v, (computeStep id d vs s).1 = .ok v → (computeStep id d vs s).2.ctx.inProgress = s.ctx.inProgress) ∧
    (∀ e, (computeStep id d vs s).1 = .error e →
      (computeStep id d vs s).2.ctx.inProgress = s.ctx.inProgress.erase id ∧
      (computeStep id d vs s).2.log = s.log) := by
  unfold computeStep
  split
  · -- cached provider
    split
    · -- store hit
      refine ⟨rfl, ⟨[], rfl⟩, ⟨[], by simp [unmarkFail], by simp, by simp⟩, fun v hv => rfl, fun e he => by simp at he⟩
    · -- store miss
      split
      · -- compute error
        exact ⟨rfl, ⟨[], rfl⟩, ⟨[], by simp [unmarkFail], by simp, by simp⟩, fun v hv => by simp at hv,
          fun e he => ⟨rfl, by simp [unmarkFail]⟩⟩
      · -- compute ok
        rename_i v' td heq
        refine ⟨pushTeardown_resolved _ _, ?_, ⟨[id], rfl, by simp, by simp⟩,
          fun v hv => pushTeardown_inProgress _ _, fun e he => by simp at he⟩
        exact pushTeardown_stack _ _
  · -- simple or yielding provider
    split
    · -- compute error
      exact ⟨rfl, ⟨[], rfl⟩, ⟨[], by simp [unmarkFail], by simp, by simp⟩, fun v hv => by simp at hv,
        fun e he => ⟨rfl, by simp [unmarkFail]⟩⟩
    · -- compute ok
      refine ⟨pushTeardown_resolved _ _, ?_, ⟨[id], rfl, by simp, by simp⟩,
        fun v hv => pushTeardown_inProgress _ _, fun e he => by simp at he⟩
      exact pushTeardown_stack _ _

lemma resolveMany_state (reg : ProviderRegistry) :
    ∀ (fuel : Nat) (ids : List ProviderID) (s : ResolveState)
      (out : Except ResolutionError (List Value)) (s' : ResolveState),
      resolveMany reg fuel ids s = some (out, s') →
      (∃ t, s'.log = s.log ++ t) ∧
      (∃ pre, s'.ctx.teardownStack = pre ++ s.ctx.teardownStack) ∧
      (∀ k v, alookup s.ctx.resolved k = some v → alookup s'.ctx.resolved k = some v) ∧
      (∀ vs, out = .ok vs → s'.ctx.inProgress = s.ctx.inProgress) ∧
      (∀ k, k ∈ s.ctx.inProgress → alookup s.ctx.resolved k = none →
        alookup s'.ctx.resolved k = none) := by
  intro fuel
  induction fuel with
  | zero =>
    intro ids s out s' h
    cases ids with
    | nil =>
      simp only [resolveMany, Option.some.injEq, Prod.mk.injEq] at h
      obtain ⟨h1, h2⟩ := h
      subst h2
      exact ⟨⟨[], by simp⟩, ⟨[], by simp⟩, fun k v hv => hv, fun vs hvs => rfl,
        fun k hk hn => hn⟩
    | cons id rest =>
      simp only [resolveMany] at h
      exact Option.noConfusion h
  | succ f ih =>
    intro ids s out s' h
    cases ids with
    | nil =>
      simp only [resolveMany, Option.some.injEq, Prod.mk.injEq] at h
      obtain ⟨h1, h2⟩ := h
      subst h2
      exact ⟨⟨[], by simp⟩, ⟨[], by simp⟩, fun k v hv => hv, fun vs hvs => rfl,
        fun k hk hn => hn⟩
    | cons id rest =>
      simp only [resolveMany] at h
      split at h
      · -- cache hit on id
        rename_i v hres
        split at h
        · exact Option.noConfusion h
        · -- rest resolution errored
          rename_i e s1 hrec
          simp only [Option.some.injEq, Prod.mk.injEq] at h
          obtain ⟨h1, h2⟩ := h
          subst h2
          subst h1
          exact ih rest s _ _ hrec
        · -- rest resolution succeeded
          rename_i vs1 s1 hrec
          simp only [Option.some.injEq, Prod.mk.injEq] at h
          obtain ⟨h1, h2⟩ := h
          subst h2
          subst h1
          obtain ⟨c1, c2, c3, c4, c5⟩ := ih rest s _ _ hrec
          exact ⟨c1, c2, c3, fun vs hvs => c4 vs1 rfl, c5⟩
      · -- id not cached in the context
        rename_i hres
        split at h
        · -- cycle detected
          simp only [Option.some.injEq, Prod.mk.injEq] at h
          obtain ⟨h1, h2⟩ := h
          subst h2
          exact ⟨⟨[], by simp⟩, ⟨[], by simp⟩, fun k v hv => hv,
            fun vs hvs => Except.noConfusion (h1.trans hvs),
            fun k hk hn => hn⟩
        · -- id not in progress
          rename_i hni
          split at h
          · -- unknown provider
            simp only [Option.some.injEq, Prod.mk.injEq] at h
            obtain ⟨h1, h2⟩ := h
            subst h2
            exact ⟨⟨[], by simp⟩, ⟨[], by simp⟩, fun k v hv => hv,
              fun vs hvs => Except.noConfusion (h1.trans hvs),
              fun k hk hn => hn⟩
          · -- provider found in the registry
            rename_i d hreg
            split at h
            · exact Option.noConfusion h
            · -- dependency resolution errored
              rename_i e s2 hdeps
              simp only [Option.some.injEq, Prod.mk.injEq] at h
              obtain ⟨h1, h2⟩ := h
              subst h2
              obtain ⟨c1, c2, c3, c4, c5⟩ := ih d.deps (markInProgress id s) _ _ hdeps
              refine ⟨c1, c2, c3, fun vs hvs => Except.noConfusion (h1.trans hvs),
                fun k hk hn => c5 k (by simp [markInProgress, hk]) hn⟩
            · -- dependencies resolved
              rename_i vs2 s2 hdeps
              obtain ⟨d1, d2, d3, d4, d5⟩ := ih d.deps (markInProgress id s) _ s2 hdeps
              have hs2in : s2.ctx.inProgress = id :: s.ctx.inProgress := d4 vs2 rfl
              split at h
              · -- compute step failed
                rename_i e s3 hcs
                simp only [Option.some.injEq, Prod.mk.injEq] at h
                obtain ⟨h1, h2⟩ := h
                subst h2
                obtain ⟨e1, e2, e3, e4, e5⟩ := computeStep_state id d vs2 s2
                rw [hcs] at e1 e2 e3
                dsimp only at e1 e2 e3
                refine ⟨?_, ?_, ?_, fun vs hvs => Except.noConfusion (h1.trans hvs), ?_⟩
                · obtain ⟨t1, ht1⟩ := d1
                  obtain ⟨t2, ht2, _, _⟩ := e3
                  exact ⟨t1 ++ t2, by simp only [markInProgress] at ht1; rw [ht2, ht1]; simp⟩
                · obtain ⟨p1, hp1⟩ := d2
                  obtain ⟨p2, hp2⟩ := e2
                  exact ⟨p2 ++ p1, by simp only [markInProgress] at hp1; rw [hp2, hp1]; simp⟩
                · intro k v hv
                  rw [e1]
                  exact d3 k v hv
                · intro k hk hn
                  rw [e1]
                  exact d5 k (by simp [markInProgress, hk]) hn
              · -- compute step succeeded
                rename_i v s3 hcs
                obtain ⟨e1, e2, e3, e4, e5⟩ := computeStep_state id d vs2 s2
                rw [hcs] at e1 e2 e3 e4
                dsimp only at e1 e2 e3 e4
                have hs3in : s3.ctx.inProgress = s2.ctx.inProgress := e4 v rfl
                have hfin : (finishOk id v s3).ctx.inProgress = s.ctx.inProgress := by
                  simp only [finishOk, hs3in, hs2in]
                  exact List.erase_cons_head id s.ctx.inProgress
                split at h
                · exact Option.noConfusion h
                · -- rest resolution errored
                  rename_i e s4 hrec
                  simp only [Option.some.injEq, Prod.mk.injEq] at h
                  obtain ⟨h1, h2⟩ := h
                  subst h2
                  obtain ⟨r1, r2, r3, r4, r5⟩ := ih rest (finishOk id v s3) _ _ hrec
                  refine ⟨?_, ?_, ?_, fun vs hvs => Except.noConfusion (h1.trans hvs), ?_⟩
                  · obtain ⟨t1, ht1⟩ := d1
                    obtain ⟨t2, ht2, _, _⟩ := e3
                    obtain ⟨t3, ht3⟩ := r1
                    refine ⟨t1 ++ t2 ++ t3, ?_⟩
                    simp only [markInProgress] at ht1
                    simp only [finishOk] at ht3
                    rw [ht3, ht2, ht1]
                    simp
                  · obtain ⟨p1, hp1⟩ := d2
                    obtain ⟨p2, hp2⟩ := e2
                    obtain ⟨p3, hp3⟩ := r2
                    refine ⟨p3 ++ p2 ++ p1, ?_⟩
                    simp only [markInProgress] at hp1
                    simp only [finishOk] at hp3
                    rw [hp3, hp2, hp1]
                    simp
                  · intro k v0 hv0
                    refine r3 k v0 ?_
                    simp only [finishOk, e1]
                    exact alookup_append_left (d3 k v0 hv0)
                  · intro k hk hn
                    have hkid : id ≠ k := fun hEq => hni (hEq ▸ hk)
                    have h2n : alookup s2.ctx.resolved k = none :=
                      d5 k (by simp [markInProgress, hk]) hn
                    refine r5 k ?_ ?_
                    · simp only [finishOk, hs3in, hs2in]
                      rw [List.erase_cons_head id s.ctx.inProgress]
                      exact hk
                    · simp only [finishOk, e1]
                      rw [alookup_append_right h2n]
                      exact alookup_singleton_ne hkid
                · -- rest resolution succeeded
                  rename_i ws s4 hrec
                  simp only [Option.some.injEq, Prod.mk.injEq] at h
                  obtain ⟨h1, h2⟩ := h
                  subst h2
                  obtain ⟨r1, r2, r3, r4, r5⟩ := ih rest (finishOk id v s3) _ _ hrec
                  refine ⟨?_, ?_, ?_, ?_, ?_⟩
                  · obtain ⟨t1, ht1⟩ := d1
                    obtain ⟨t2, ht2, _, _⟩ := e3
                    obtain ⟨t3, ht3⟩ := r1
                    refine ⟨t1 ++ t2 ++ t3, ?_⟩
                    simp only [markInProgress] at ht1
                    simp only [finishOk] at ht3
                    rw [ht3, ht2, ht1]
                    simp
                  · obtain ⟨p1, hp1⟩ := d2
                    obtain ⟨p2, hp2⟩ := e2
                    obtain ⟨p3, hp3⟩ := r2
                    refine ⟨p3 ++ p2 ++ p1, ?_⟩
                    simp only [markInProgress] at hp1
                    simp only [finishOk] at hp3
                    rw [hp3, hp2, hp1]
                    simp
                  · intro k v0 hv0
                    refine r3 k v0 ?_
                    simp only [finishOk, e1]
                    exact alookup_append_left (d3 k v0 hv0)
                  · intro vs hvs
                    rw [r4 ws rfl, hfin]
                  · intro k hk hn
                    have hkid : id ≠ k := fun hEq => hni (hEq ▸ hk)
                    have h2n : alookup s2.ctx.resolved k = none :=
                      d5 k (by simp [markInProgress, hk]) hn
                    refine r5 k ?_ ?_
                    · rw [hfin]
                      exact hk
                    · simp only [finishOk, e1]
                      rw [alookup_append_right h2n]
                      exact alookup_singleton_ne hkid

lemma count_eq_zero_of_all_eq {t : List Nat} {id k : Nat} (hall : ∀ j ∈ t, j = id)
    (hne : k ≠ id) : t.count k = 0 := by
  rw [List.count_eq_zero]
  intro hk
  exact hne (hall k hk)

lemma alookup_append_singleton {α : Type} (l : List (Nat × α)) (k : Nat) (v : α) :
    alookup (l ++ [(k, v)]) k ≠ none := by
  cases h : alookup l k with
  | some w => rw [alookup_append_left h]; simp
  | none => rw [alookup_append_right h]; simp [alookup]

lemma resolveMany_log (reg : ProviderRegistry) :
    ∀ (fuel : Nat) (ids : List ProviderID) (s : ResolveState)
      (out : Except ResolutionError (List Value)) (s' : ResolveState),
      resolveMany reg fuel ids s = some (out, s') →
      ∃ t, s'.log = s.log ++ t ∧
        ∀ k : ProviderID,
          t.count k ≤ 1 ∧
          (alookup s.ctx.resolved k ≠ none → t.count k = 0) ∧
          (k ∈ s.ctx.inProgress → t.count k = 0) ∧
          (∀ vs, out = .ok vs → t.count k ≠ 0 → alookup s'.ctx.resolved k ≠ none) := by
  intro fuel
  induction fuel with
  | zero =>
    intro ids s out s' h
    cases ids with
    | nil =>
      simp only [resolveMany, Option.some.injEq, Prod.mk.injEq] at h
      obtain ⟨h1, h2⟩ := h
      subst h2
      exact ⟨[], by simp, fun k =>
        ⟨by simp, fun _ => by simp, fun _ => by simp, fun vs hvs hc => absurd (by simp) hc⟩⟩
    | cons id rest =>
      simp only [resolveMany] at h
      exact Option.noConfusion h
  | succ f ih =>
    intro ids s out s' h
    cases ids with
    | nil =>
      simp only [resolveMany, Option.some.injEq, Prod.mk.injEq] at h
      obtain ⟨h1, h2⟩ := h
      subst h2
      exact ⟨[], by simp, fun k =>
        ⟨by simp, fun _ => by simp, fun _ => by simp, fun vs hvs hc => absurd (by simp) hc⟩⟩
    | cons id rest =>
      simp only [resolveMany] at h
      split at h
      · -- cache hit on id
        rename_i v hres
        split at h
        · exact Option.noConfusion h
        · -- rest resolution errored
          rename_i e s1 hrec
          simp only [Option.some.injEq, Prod.mk.injEq] at h
          obtain ⟨h1, h2⟩ := h
          subst h2
          subst h1
          exact ih rest s _ _ hrec
        · -- rest resolution succeeded
          rename_i vs1 s1 hrec
          simp only [Option.some.injEq, Prod.mk.injEq] at h
          obtain ⟨h1, h2⟩ := h
          subst h2
          subst h1
          obtain ⟨t, ht, hk⟩ := ih rest s _ _ hrec
          refine ⟨t, ht, fun k => ?_⟩
          obtain ⟨k1, k2, k3, k4⟩ := hk k
          exact ⟨k1, k2, k3, fun vs hvs hc => k4 vs1 rfl hc⟩
      · -- id not cached in the context
        rename_i hres
        split at h
        · -- cycle detected
          simp only [Option.some.injEq, Prod.mk.injEq] at h
          obtain ⟨h1, h2⟩ := h
          subst h2
          exact ⟨[], by simp, fun k =>
            ⟨by simp, fun _ => by simp, fun _ => by simp,
             fun vs hvs hc => Except.noConfusion (h1.trans hvs)⟩⟩
        · -- id not in progress
          rename_i hni
          split at h
          · -- unknown provider
            simp only [Option.some.injEq, Prod.mk.injEq] at h
            obtain ⟨h1, h2⟩ := h
            subst h2
            exact ⟨[], by simp, fun k =>
              ⟨by simp, fun _ => by simp, fun _ => by simp,
               fun vs hvs hc => Except.noConfusion (h1.trans hvs)⟩⟩
          · -- provider found in the registry
            rename_i d hreg
            split at h
            · exact Option.noConfusion h
            · -- dependency resolution errored
              rename_i e s2 hdeps
              simp only [Option.some.injEq, Prod.mk.injEq] at h
              obtain ⟨h1, h2⟩ := h
              subst h2
              obtain ⟨t1, ht1, hk1⟩ := ih d.deps (markInProgress id s) _ _ hdeps
              refine ⟨t1, ht1, fun k => ?_⟩
              obtain ⟨k1, k2, k3, k4⟩ := hk1 k
              refine ⟨k1, fun hr => k2 hr, fun hin => k3 ?_, 
                fun vs hvs hc => Except.noConfusion (h1.trans hvs)⟩
              simp only [markInProgress]
              exact List.mem_cons_of_mem id hin
            · -- dependencies resolved
              rename_i vs2 s2 hdeps
              obtain ⟨t1, ht1, hk1⟩ := ih d.deps (markInProgress id s) _ _ hdeps
              obtain ⟨sd1, sd2, sd3, sd4, sd5⟩ :=
                resolveMany_state reg f d.deps (markInProgress id s) _ _ hdeps
              have hs2in : s2.ctx.inProgress = id :: s.ctx.inProgress := sd4 vs2 rfl
              have hresA : alookup s.ctx.resolved id = none := by
                simpa [lookupResolved] using hres
              split at h
              · -- compute step failed
                rename_i e s3 hcs
                simp only [Option.some.injEq, Prod.mk.injEq] at h
                obtain ⟨h1, h2⟩ := h
                subst h2
                obtain ⟨e1, e2, e3, e4, e5⟩ := computeStep_state id d vs2 s2
                rw [hcs] at e5
                dsimp only at e5
                have hlog3 : s3.log = s2.log := (e5 e rfl).2
                refine ⟨t1, by rw [hlog3, ht1]; simp [markInProgress], fun k => ?_⟩
                obtain ⟨k1, k2, k3, k4⟩ := hk1 k
                exact ⟨k1, fun hr => k2 hr, fun hin => k3 (List.mem_cons_of_mem id hin),
                  fun vs hvs hc => Except.noConfusion (h1.trans hvs)⟩
              · -- compute step succeeded
                rename_i v s3 hcs
                obtain ⟨e1, e2, e3, e4, e5⟩ := computeStep_state id d vs2 s2
                rw [hcs] at e1 e3 e4
                dsimp only at e1 e3 e4
                obtain ⟨t2, ht2, ht2mem, ht2len⟩ := e3
                have hs3in : s3.ctx.inProgress = s2.ctx.inProgress := e4 v rfl
                have hfinres : (finishOk id v s3).ctx.resolved = s2.ctx.resolved ++ [(id, v)] := by
                  simp only [finishOk, e1]
                have hfinin : (finishOk id v s3).ctx.inProgress = s.ctx.inProgress := by
                  simp only [finishOk, hs3in, hs2in]
                  exact List.erase_cons_head id s.ctx.inProgress
                have hfin_id : alookup (finishOk id v s3).ctx.resolved id ≠ none := by
                  rw [hfinres]
                  exact alookup_append_singleton _ _ _
                have key : ∀ (outR : Except ResolutionError (List Value)) (s4 : ResolveState),
                    resolveMany reg f rest (finishOk id v s3) = some (outR, s4) →
                    ∃ t, s4.log = s.log ++ t ∧
                      ∀ k : ProviderID,
                        t.count k ≤ 1 ∧
                        (alookup s.ctx.resolved k ≠ none → t.count k = 0) ∧
                        (k ∈ s.ctx.inProgress → t.count k = 0) ∧
                        (∀ ws, outR = .ok ws → t.count k ≠ 0 →
                          alookup s4.ctx.resolved k ≠ none) := by
                  intro outR s4 hrec
                  obtain ⟨t3, ht3, hk3⟩ := ih rest (finishOk id v s3) _ _ hrec
                  obtain ⟨sr1, sr2, sr3, sr4, sr5⟩ :=
                    resolveMany_state reg f rest (finishOk id v s3) _ _ hrec
                  refine ⟨t1 ++ t2 ++ t3, ?_, fun k => ?_⟩
                  · rw [ht3]
                    simp only [finishOk]
                    rw [ht2, ht1]
                    simp [markInProgress]
                  obtain ⟨k1, k2, k3, k4⟩ := hk1 k
                  obtain ⟨m1, m2, m3, m4⟩ := hk3 k
                  by_cases hkid : k = id
                  · have hz1 : t1.count k = 0 := k3 (by simp [markInProgress, hkid])
                    have hfin_k : alookup (finishOk id v s3).ctx.resolved k ≠ none := by
                      rw [hkid]
                      exact hfin_id
                    have hz3 : t3.count k = 0 := m2 hfin_k
                    have hc2 : t2.count k ≤ 1 := le_trans (List.count_le_length k t2) ht2len
                    refine ⟨by simp [List.count_append, hz1, hz3]; exact hc2,
                      fun hr => absurd (by rw [hkid]; exact hresA) hr,
                      fun hin => absurd (show id ∈ s.ctx.inProgress by rw [← hkid]; exact hin) hni,
                      fun ws hws hc => ?_⟩
                    have hex : ∃ w, alookup (finishOk id v s3).ctx.resolved k = some w := by
                      cases hx : alookup (finishOk id v s3).ctx.resolved k with
                      | none => exact absurd hx hfin_k
                      | some w => exact ⟨w, rfl⟩
                    obtain ⟨w, hw⟩ := hex
                    rw [sr3 k w hw]
                    simp
                  · have hz2 : t2.count k = 0 := count_eq_zero_of_all_eq ht2mem hkid
                    by_cases hz1 : t1.count k = 0
                    · refine ⟨by simp [List.count_append, hz1, hz2]; exact m1,
                        fun hr => ?_, fun hin => ?_, fun ws hws hc => ?_⟩
                      · have h0 : t3.count k = 0 := by
                          refine m2 ?_
                          rw [hfinres]
                          intro hnone
                          cases hx : alookup s.ctx.resolved k with
                          | none => exact hr hx
                          | some w =>
                            have hy := @alookup_append_left _ _ [(id, v)] _ _ (sd3 k w hx)
                            rw [hy] at hnone
                            exact Option.noConfusion hnone
                        simp [List.count_append, hz1, hz2, h0]
                      · have h0 : t3.count k = 0 := by
                          refine m3 ?_
                          rw [hfinin]
                          exact hin
                        have h1z : t1.count k = 0 := k3 (List.mem_cons_of_mem id hin)
                        simp [List.count_append, h1z, hz2, h0]
                      · have hc3 : t3.count k ≠ 0 := by
                          intro hz3
                          simp [List.count_append, hz1, hz2, hz3] at hc
                        exact m4 ws hws hc3
                    · have hres2 : alookup s2.ctx.resolved k ≠ none := k4 vs2 rfl hz1
                      have hfinsome : alookup (finishOk id v s3).ctx.resolved k ≠ none := by
                        rw [hfinres]
                        intro hnone
                        cases hx : alookup s2.ctx.resolved k with
                        | none => exact hres2 hx
                        | some w =>
                          have hy := @alookup_append_left _ _ [(id, v)] _ _ hx
                          rw [hy] at hnone
                          exact Option.noConfusion hnone
                      have hz3 : t3.count k = 0 := m2 hfinsome
                      refine ⟨by simp [List.count_append, hz2, hz3]; exact k1,
                        fun hr => absurd (k2 (by simpa [markInProgress] using hr)) hz1,
                        fun hin => absurd (k3 (List.mem_cons_of_mem id hin)) hz1,
                        fun ws hws hc => ?_⟩
                      have hex : ∃ w, alookup (finishOk id v s3).ctx.resolved k = some w := by
                        cases hx : alookup (finishOk id v s3).ctx.resolved k with
                        | none => exact absurd hx hfinsome
                        | some w => exact ⟨w, rfl⟩
                      obtain ⟨w, hw⟩ := hex
                      rw [sr3 k w hw]
                      simp
                split at h
                · exact Option.noConfusion h
                · -- rest resolution errored
                  rename_i e0 s4 hrec
                  simp only [Option.some.injEq, Prod.mk.injEq] at h
                  obtain ⟨h1, h2⟩ := h
                  subst h2
                  obtain ⟨t, ht, hk⟩ := key _ _ hrec
                  refine ⟨t, ht, fun k => ?_⟩
                  obtain ⟨k1, k2, k3, k4⟩ := hk k
                  exact ⟨k1, k2, k3, fun vs hvs hc => Except.noConfusion (h1.trans hvs)⟩
                · -- rest resolution succeeded
                  rename_i ws s4 hrec
                  simp only [Option.some.injEq, Prod.mk.injEq] at h
                  obtain ⟨h1, h2⟩ := h
                  subst h2
                  obtain ⟨t, ht, hk⟩ := key _ _ hrec
                  refine ⟨t, ht, fun k => ?_⟩
                  obtain ⟨k1, k2, k3, k4⟩ := hk k
                  refine ⟨k1, k2, k3, fun vs hvs hc => k4 ws rfl hc⟩

lemma resolveMany_resolves (reg : ProviderRegistry) :
    ∀ (fuel : Nat) (ids : List ProviderID) (s : ResolveState) (vs : List Value)
      (s' : ResolveState),
      resolveMany reg fuel ids s = some (.ok vs, s') →
      List.Forall₂ (fun id v => alookup s'.ctx.resolved id = some v) ids vs := by
  intro fuel
  induction fuel with
  | zero =>
    intro ids s vs s' h
    cases ids with
    | nil =>
      simp only [resolveMany, Option.some.injEq, Prod.mk.injEq, Except.ok.injEq] at h
      obtain ⟨h1, h2⟩ := h
      subst h1
      exact List.Forall₂.nil
    | cons id rest =>
      simp only [resolveMany] at h
      exact Option.noConfusion h
  | succ f ih =>
    intro ids s vs s' h
    cases ids with
    | nil =>
      simp only [resolveMany, Option.some.injEq, Prod.mk.injEq, Except.ok.injEq] at h
      obtain ⟨h1, h2⟩ := h
      subst h1
      exact List.Forall₂.nil
    | cons id rest =>
      simp only [resolveMany] at h
      split at h
      · -- cache hit on id
        rename_i v hres
        split at h
        · exact Option.noConfusion h
        · rename_i e s1 hrec
          simp only [Option.some.injEq, Prod.mk.injEq] at h
          exact absurd h.1 (fun hx => Except.noConfusion hx)
        · rename_i vs1 s1 hrec
          simp only [Option.some.injEq, Prod.mk.injEq, Except.ok.injEq] at h
          obtain ⟨h1, h2⟩ := h
          subst h2
          subst h1
          have hresA : alookup s.ctx.resolved id = some v := hres
          have hmono := (resolveMany_state reg f rest s _ _ hrec).2.2.1
          exact List.Forall₂.cons (hmono id v hresA) (ih rest s vs1 _ hrec)
      · rename_i hres
        split at h
        · -- cycle detected
          simp only [Option.some.injEq, Prod.mk.injEq] at h
          exact absurd h.1 (fun hx => Except.noConfusion hx)
        · rename_i hni
          split at h
          · -- unknown provider
            simp only [Option.some.injEq, Prod.mk.injEq] at h
            exact absurd h.1 (fun hx => Except.noConfusion hx)
          · rename_i d hreg
            split at h
            · exact Option.noConfusion h
            · rename_i e s2 hdeps
              simp only [Option.some.injEq, Prod.mk.injEq] at h
              exact absurd h.1 (fun hx => Except.noConfusion hx)
            · rename_i vs2 s2 hdeps
              obtain ⟨sd1, sd2, sd3, sd4, sd5⟩ :=
                resolveMany_state reg f d.deps (markInProgress id s) _ _ hdeps
              have hresA : alookup s.ctx.resolved id = none := by
                simpa [lookupResolved] using hres
              have hs2res : alookup s2.ctx.resolved id = none :=
                sd5 id (by simp [markInProgress]) hresA
              split at h
              · rename_i e s3 hcs
                simp only [Option.some.injEq, Prod.mk.injEq] at h
                exact absurd h.1 (fun hx => Except.noConfusion hx)
              · rename_i v s3 hcs
                obtain ⟨e1, e2, e3, e4, e5⟩ := computeStep_state id d vs2 s2
                rw [hcs] at e1
                dsimp only at e1
                have hfinV : alookup (finishOk id v s3).ctx.resolved id = some v := by
                  simp only [finishOk, e1]
                  rw [alookup_append_right hs2res]
                  exact alookup_singleton_same
                split at h
                · exact Option.noConfusion h
                · rename_i e s4 hrec
                  simp only [Option.some.injEq, Prod.mk.injEq] at h
                  exact absurd h.1 (fun hx => Except.noConfusion hx)
                · rename_i ws s4 hrec
                  simp only [Option.some.injEq, Prod.mk.injEq, Except.ok.injEq] at h
                  obtain ⟨h1, h2⟩ := h
                  subst h2
                  subst h1
                  have hmono := (resolveMany_state reg f rest (finishOk id v s3) _ _ hrec).2.2.1
                  exact List.Forall₂.cons (hmono id v hfinV) (ih rest (finishOk id v s3) ws _ hrec)

lemma resolveMany_replay (reg : ProviderRegistry) :
    ∀ (ids : List ProviderID) (vs : List Value) (s : ResolveState),
      List.Forall₂ (fun id v => alookup s.ctx.resolved id = some v) ids vs →
      resolveMany reg ids.length ids s = some (.ok vs, s) := by
  intro ids
  induction ids with
  | nil =>
    intro vs s h
    cases h
    simp [resolveMany]
  | cons id rest ih =>
    intro vs s h
    cases h with
    | cons hv htail =>
      rename_i v vs1
      have h1 : lookupResolved s.ctx id = some v := hv
      have h2 := ih vs1 s htail
      simp [resolveMany, h1, h2]

lemma nodup_subset_length_le {l1 l2 : List Nat} (hn : l1.Nodup) (hs : l1 ⊆ l2) :
    l1.length ≤ l2.length := by
  induction l1 generalizing l2 with
  | nil => simp
  | cons a t ih =>
    obtain ⟨ha, ht⟩ := List.nodup_cons.mp hn
    have hmem : a ∈ l2 := hs (List.mem_cons_self a t)
    have hsub : t ⊆ l2.erase a := by
      intro x hx
      have hxne : x ≠ a := fun hEq => ha (hEq ▸ hx)
      exact (List.mem_erase_of_ne hxne).mpr (hs (List.mem_cons_of_mem a hx))
    have hlt := ih ht hsub
    have hlen : (l2.erase a).length = l2.length - 1 := List.length_erase_of_mem hmem
    have hpos : 0 < l2.length := List.length_pos_of_mem hmem
    simp only [List.length_cons]
    omega

lemma resolveMany_total (reg : ProviderRegistry) :
    ∀ (fuel : Nat) (ids : List ProviderID) (s : ResolveState),
      s.ctx.inProgress.Nodup →
      (∀ k ∈ s.ctx.inProgress, k ∈ keys reg) →
      ids.length + (reg.length - s.ctx.inProgress.length) * (maxDeps reg + 1) ≤ fuel →
      resolveMany reg fuel ids s ≠ none := by
  intro fuel
  induction fuel with
  | zero =>
    intro ids s hnd hsub hb
    cases ids with
    | nil => simp [resolveMany]
    | cons id rest =>
      simp only [List.length_cons] at hb
      omega
  | succ f ih =>
    intro ids s hnd hsub hb
    cases ids with
    | nil => simp [resolveMany]
    | cons id rest =>
      simp only [resolveMany]
      cases hres : lookupResolved s.ctx id with
      | some v =>
        have hrest := ih rest s hnd hsub
          (by simp only [List.length_cons] at hb; omega)
        cases hrec : resolveMany reg f rest s with
        | none => exact absurd hrec hrest
        | some p =>
          obtain ⟨out1, s1⟩ := p
          cases out1 <;> simp [hres, hrec]
      | none =>
        by_cases hin : id ∈ s.ctx.inProgress
        · simp [hres, hin]
        · cases hreg : alookup reg id with
          | none => simp [hres, hin, hreg]
          | some d =>
            have hidk : id ∈ keys reg := alookup_mem_keys hreg
            have hlt : s.ctx.inProgress.length < reg.length := by
              have h1 : (id :: s.ctx.inProgress).Nodup := List.nodup_cons.mpr ⟨hin, hnd⟩
              have h2 : (id :: s.ctx.inProgress) ⊆ keys reg := by
                intro x hx
                cases List.mem_cons.mp hx with
                | inl hEq => exact hEq ▸ hidk
                | inr hm => exact hsub x hm
              have h3 := nodup_subset_length_le h1 h2
              have h4 : (keys reg).length = reg.length := by simp [keys]
              simp only [List.length_cons, h4] at h3
              omega
            have hD := alookup_deps_le_maxDeps hreg
            have hdepsb : d.deps.length +
                (reg.length - (s.ctx.inProgress.length + 1)) * (maxDeps reg + 1) ≤ f := by
              have hexp : (reg.length - s.ctx.inProgress.length) * (maxDeps reg + 1)
                  = (reg.length - (s.ctx.inProgress.length + 1)) * (maxDeps reg + 1)
                    + (maxDeps reg + 1) := by
                have hstep : reg.length - s.ctx.inProgress.length
                    = (reg.length - (s.ctx.inProgress.length + 1)) + 1 := by omega
                rw [hstep, Nat.succ_mul]
              simp only [List.length_cons] at hb
              omega
            have hdnd : (markInProgress id s).ctx.inProgress.Nodup := by
              simp only [markInProgress]
              exact List.nodup_cons.mpr ⟨hin, hnd⟩
            have hdsub : ∀ k ∈ (markInProgress id s).ctx.inProgress, k ∈ keys reg := by
              intro k hk
              simp only [markInProgress, List.mem_cons] at hk
              cases hk with
              | inl hEq => exact hEq ▸ hidk
              | inr hm => exact hsub k hm
            have hdeps := ih d.deps (markInProgress id s) hdnd hdsub
              (by simp only [markInProgress]; exact hdepsb)
            cases hdeps2 : resolveMany reg f d.deps (markInProgress id s) with
            | none => exact absurd hdeps2 hdeps
            | some p =>
              obtain ⟨out2, s2⟩ := p
              cases out2 with
              | error e => simp [hres, hin, hreg, hdeps2]
              | ok vs2 =>
                cases hcs : computeStep id d vs2 s2 with
                | mk r s3 =>
                  cases r with
                  | error e => simp [hres, hin, hreg, hdeps2, hcs]
                  | ok v =>
                    obtain ⟨sd1, sd2, sd3, sd4, sd5⟩ :=
                      resolveMany_state reg f d.deps (markInProgress id s) _ _ hdeps2
                    have hs2in : s2.ctx.inProgress = id :: s.ctx.inProgress := sd4 vs2 rfl
                    obtain ⟨e1, e2, e3, e4, e5⟩ := computeStep_state id d vs2 s2
                    rw [hcs] at e4
                    dsimp only at e4
                    have hs3in : s3.ctx.inProgress = s2.ctx.inProgress := e4 v rfl
                    have hfin : (finishOk id v s3).ctx.inProgress = s.ctx.inProgress := by
                      simp only [finishOk, hs3in, hs2in]
                      exact List.erase_cons_head id s.ctx.inProgress
                    have hrest := ih rest (finishOk id v s3)
                      (by rw [hfin]; exact hnd)
                      (by rw [hfin]; exact hsub)
                      (by rw [hfin]; simp only [List.length_cons] at hb; omega)
                    cases hrec : resolveMany reg f rest (finishOk id v s3) with
                    | none => exact absurd hrec hrest
                    | some q =>
                      obtain ⟨out3, s4⟩ := q
                      cases out3 <;> simp [hres, hin, hreg, hdeps2, hcs, hrec]

lemma foldl_acquire_stack (as : List TeardownAction) :
    ∀ c : ResolutionContext, (as.foldl acquire c).teardownStack = as.reverse ++ c.teardownStack := by
  induction as with
  | nil => intro c; simp
  | cons a t ih =>
    intro c
    simp only [List.foldl_cons, ih (acquire c a), List.reverse_cons]
    simp [acquire]

lemma alookup_none_keys {α : Type} {l : List (Nat × α)} {k : Nat}
    (h : alookup l k = none) : k ∉ l.map Prod.fst := by
  induction l with
  | nil => simp
  | cons p t ih =>
    obtain ⟨pk, pv⟩ := p
    by_cases hk : pk = k
    · subst hk
      simp [alookup] at h
    · simp [alookup, hk] at h
      simp only [List.map_cons, List.mem_cons]
      rintro (hEq | hm)
      · exact hk hEq.symm
      · exact ih h hm

lemma resolveMany_cachedLeaf_hit {reg : ProviderRegistry} {cid : ProviderID} {v : Value}
    (hreg : alookup reg cid = some (cachedLeaf v)) (fuel : Nat) (store : ScopeStore)
    (log : List ProviderID) (hstore : alookup store cid = some v) :
    resolveMany reg (fuel + 1) [cid] ⟨emptyContext, store, log⟩ =
      some (.ok [v], ⟨⟨[(cid, v)], [], []⟩, store, log⟩) := by
  simp [resolveMany, lookupResolved, emptyContext, alookup, hreg, computeStep, cachedLeaf,
    hstore, markInProgress, finishOk]

lemma resolveMany_cachedLeaf_miss {reg : ProviderRegistry} {cid : ProviderID} {v : Value}
    (hreg : alookup reg cid = some (cachedLeaf v)) (fuel : Nat) (store : ScopeStore)
    (log : List ProviderID) (hstore : alookup store cid = none) :
    resolveMany reg (fuel + 1) [cid] ⟨emptyContext, store, log⟩ =
      some (.ok [v], ⟨⟨[(cid, v)], [], []⟩, store ++ [(cid, v)], log ++ [cid]⟩) := by
  simp [resolveMany, lookupResolved, emptyContext, alookup, hreg, computeStep, cachedLeaf,
    hstore, markInProgress, finishOk, pushTeardown]

lemma runContexts_hit {reg : ProviderRegistry} {cid : ProviderID} {v : Value}
    (hreg : alookup reg cid = some (cachedLeaf v)) (fuel : Nat) :
    ∀ (n : Nat) (store : ScopeStore) (log : List ProviderID),
      alookup store cid = some v →
      runContexts reg (fuel + 1) [cid] n store log =
        (List.replicate n (some (.ok [v])), store, log) := by
  intro n
  induction n with
  | zero => intro store log hstore; simp [runContexts]
  | succ m ih =>
    intro store log hstore
    simp only [runContexts, resolveMany_cachedLeaf_hit hreg fuel store log hstore]
    rw [ih store log hstore]
    simp [List.replicate_succ]

/-- C1: resolved entries are write-once per ResolutionContext: a provider that
is already resolved in a context is answered from the cache with no
recomputation and no state change at all, and for any provider graph a second
resolution of the same targets within the same context returns identical
values with an unchanged state, while the whole resolution executes the
compute step of every provider at most once. -/
theorem resolved_cache_write_once :
    (∀ (reg : ProviderRegistry) (fuel : Nat) (s : ResolveState) (id : ProviderID) (v : Value),
      lookupResolved s.ctx id = some v →
      resolveMany reg (fuel + 1) [id] s = some (.ok [v], s)) ∧
    (∀ (reg : ProviderRegistry) (fuel : Nat) (targets : List ProviderID)
      (s : ResolveState) (vs : List Value) (s' : ResolveState),
      resolveMany reg fuel targets s = some (.ok vs, s') →
      resolveMany reg targets.length targets s' = some (.ok vs, s') ∧
      ∃ t, s'.log = s.log ++ t ∧ ∀ id : ProviderID, t.count id ≤ 1) := by
  constructor
  · intro reg fuel s id v h
    simp [resolveMany, h]
  · intro reg fuel targets s vs s' h
    refine ⟨?_, ?_⟩
    · exact resolveMany_replay reg targets vs s'
        (resolveMany_resolves reg fuel targets s vs s' h)
    · obtain ⟨t, ht, hk⟩ := resolveMany_log reg fuel targets s _ _ h
      exact ⟨t, ht, fun id => (hk id).1⟩

/-- Witness for C1 at a concrete state with provider 7 already resolved. -/
theorem resolved_cache_write_once_witness :
    lookupResolved w1State.ctx 7 = some 42 ∧
    resolveMany [] 1 [7] w1State = some (.ok [42], w1State) :=
  ⟨rfl, resolved_cache_write_once.1 [] 0 w1State 7 42 rfl⟩

/-- C2: unwinding a context executes every pushed teardown action exactly
once, in the exact reverse of acquisition order, a second unwind executes
nothing, and after any resolution, successful or failed, the unwind executes
a stack that still ends with every action pushed before the resolution. -/
theorem teardown_reverse_order_once :
    (∀ (as : List TeardownAction),
      (unwind (as.foldl acquire emptyContext)).1 = as.reverse ∧
      (∀ a, (unwind (as.foldl acquire emptyContext)).1.count a = as.count a) ∧
      (unwind ((unwind (as.foldl acquire emptyContext)).2)).1 = []) ∧
    (∀ (reg : ProviderRegistry) (fuel : Nat) (ids : List ProviderID)
      (s : ResolveState) (out : Except ResolutionError (List Value)) (s' : ResolveState),
      resolveMany reg fuel ids s = some (out, s') →
      ∃ pre, (unwind s'.ctx).1 = pre ++ s.ctx.teardownStack) := by
  constructor
  · intro as
    have hstack := foldl_acquire_stack as emptyContext
    refine ⟨?_, ?_, ?_⟩
    · simp only [unwind]
      rw [hstack]
      simp [emptyContext]
    · intro a
      simp only [unwind]
      rw [hstack]
      simp [emptyContext, List.count_reverse]
    · simp [unwind]
  · intro reg fuel ids s out s' h
    obtain ⟨pre, hpre⟩ := (resolveMany_state reg fuel ids s out s' h).2.1
    exact ⟨pre, by simp [unwind, hpre]⟩

/-- Witness for C2 at a concrete trivial resolution. -/
theorem teardown_reverse_order_once_witness :
    ∃ pre, (unwind initState.ctx).1 = pre ++ initState.ctx.teardownStack :=
  teardown_reverse_order_once.2 [] 0 [] initState (.ok []) initState rfl

/-- C3: during any resolution the teardown stack only grows, so a teardown
pushed by a successful Yielding setup survives any later failure; concretely,
in yieldReg the Yielding provider 10 pushes teardown 99, the later provider
11 fails, the whole resolution reports that failure, and unwind still
executes teardown 99. -/
theorem yielding_teardown_survives_failure :
    (∀ (reg : ProviderRegistry) (fuel : Nat) (ids : List ProviderID)
      (s : ResolveState) (out : Except ResolutionError (List Value)) (s' : ResolveState),
      resolveMany reg fuel ids s = some (out, s') →
      ∃ pre, s'.ctx.teardownStack = pre ++ s.ctx.teardownStack) ∧
    resolve yieldReg [12] =
      some (.error (.providerFailed 11 "boom"),
        ⟨⟨[(10, 1)], [12], [99]⟩, [], [10]⟩) ∧
    (unwind (⟨[(10, 1)], [12], [99]⟩ : ResolutionContext)).1 = [99] := by
  refine ⟨?_, rfl, rfl⟩
  intro reg fuel ids s out s' h
  exact (resolveMany_state reg fuel ids s out s' h).2.1

/-- Witness for C3 at the concrete failing resolution of yieldReg. -/
theorem yielding_teardown_survives_failure_witness :
    ∃ pre, (⟨⟨[(10, 1)], [12], [99]⟩, [], [10]⟩ : ResolveState).ctx.teardownStack =
      pre ++ initState.ctx.teardownStack :=
  yielding_teardown_survives_failure.1 yieldReg (fuelBound yieldReg [12]) [12] initState
    (.error (.providerFailed 11 "boom")) ⟨⟨[(10, 1)], [12], [99]⟩, [], [10]⟩ rfl

/-- C4: a request for a provider already marked in progress fails with
CycleDetected carrying the current path, resolution with the supplied fuel
bound terminates on every input graph, and the concrete two-provider cycle
fails with CycleDetected on the path 0, 1, 0. -/
theorem cycle_detected_and_terminates :
    (∀ (reg : ProviderRegistry) (fuel : Nat) (id : ProviderID) (rest : List ProviderID)
      (s : ResolveState),
      lookupResolved s.ctx id = none → id ∈ s.ctx.inProgress →
      resolveMany reg (fuel + 1) (id :: rest) s =
        some (.error (.cycleDetected (id :: s.ctx.inProgress)), s)) ∧
    (∀ (reg : ProviderRegistry) (targets : List ProviderID), resolve reg targets ≠ none) ∧
    resolve cycleReg [0] =
      some (.error (.cycleDetected [0, 1, 0]), ⟨⟨[], [1, 0], []⟩, [], []⟩) := by
  refine ⟨?_, ?_, rfl⟩
  · intro reg fuel id rest s h1 h2
    simp [resolveMany, h1, h2]
  · intro reg targets
    refine resolveMany_total reg (fuelBound reg targets) targets initState ?_ ?_ ?_
    · simp [initState, emptyContext]
    · simp [initState, emptyContext]
    · simp [initState, emptyContext, fuelBound]

/-- Witness for C4 at a concrete state with provider 3 in progress. -/
theorem cycle_detected_and_terminates_witness :
    resolveMany [] 1 [3] w4State = some (.error (.cycleDetected [3, 3]), w4State) :=
  cycle_detected_and_terminates.1 [] 0 3 [] w4State rfl (by simp [w4State])

/-- C5: a Cached provider resolved from N serialized contexts sharing the
process-wide store executes its compute step exactly once process-wide (the
final compute log is exactly one entry), every context observes the same
value, and the store holds that value unchanged from the first computation
on. -/
theorem cached_single_flight_process_wide :
    ∀ (reg : ProviderRegistry) (cid : ProviderID) (v : Value) (fuel n : Nat),
      alookup reg cid = some (cachedLeaf v) →
      runContexts reg (fuel + 1) [cid] (n + 1) [] [] =
        (List.replicate (n + 1) (some (.ok [v])), [(cid, v)], [cid]) := by
  intro reg cid v fuel n hreg
  have hmiss := resolveMany_cachedLeaf_miss hreg fuel [] [] (by simp [alookup])
  simp only [runContexts, hmiss, List.nil_append]
  rw [runContexts_hit hreg fuel n [(cid, v)] [cid] alookup_singleton_same]
  simp [List.replicate_succ]

/-- Witness for C5: three contexts, compute executes once, all observe 42. -/
theorem cached_single_flight_process_wide_witness :
    runContexts [(5, cachedLeaf 42)] 1 [5] 3 [] [] =
      (List.replicate 3 (some (.ok [42])), [(5, 42)], [5]) :=
  cached_single_flight_process_wide [(5, cachedLeaf 42)] 5 42 0 2 rfl

/-- C6: in the depfunc scenario with base value 5, resolution of the handler
target yields num1 = 6 and num2 = 7 in the context cache, the handler total
is 18, and the base provider 0 computes exactly once despite two dependents:
the compute log is 0, 1, 2, 3 with a single entry for 0. -/
theorem dependency_chain_scenario :
    resolve diReg [3] =
      some (.ok [18], ⟨⟨[(0, 5), (1, 6), (2, 7), (3, 18)], [], []⟩, [], [0, 1, 2, 3]⟩) ∧
    alookup [(0, 5), (1, 6), (2, 7), (3, 18)] 1 = some 6 ∧
    alookup [(0, 5), (1, 6), (2, 7), (3, 18)] 2 = some 7 ∧
    ([0, 1, 2, 3] : List ProviderID).count 0 = 1 ∧
    depfunc1 5 = 6 ∧ depfunc2 5 = 7 ∧ get_main 5 (depfunc1 5) (depfunc2 5) = 18 := by
  refine ⟨rfl, rfl, rfl, by decide, rfl, rfl, rfl⟩

/-- C7: a provider that raises an authorization rejection when the
header-equivalent input is absent makes resolution of a dependent target
fail with AuthRejected, never with ProviderFailed, matching the distinct 401
of get_admin_data on an absent token versus its success on the right one. -/
theorem auth_rejected_distinct :
    resolve authReg [22] =
      some (.error (.authRejected 21 "Authentication token required"),
        ⟨⟨[(20, 0)], [22], []⟩, [], [20]⟩) ∧
    (∀ (i : ProviderID) (c : String) (s' : ResolveState),
      resolve authReg [22] ≠ some (.error (.providerFailed i c), s')) ∧
    get_admin_data none = .error (401, "Authentication token required") ∧
    get_admin_data (some "admin-secret") = .ok "Admin data accessed successfully" := by
  refine ⟨rfl, ?_, rfl, by simp [get_admin_data]⟩
  intro i c s' hcontra
  rw [show resolve authReg [22] =
      some (.error (.authRejected 21 "Authentication token required"),
        ⟨⟨[(20, 0)], [22], []⟩, [], [20]⟩) from rfl] at hcontra
  simp at hcontra

/-- Witness for C7 against a concrete ProviderFailed outcome. -/
theorem auth_rejected_distinct_witness :
    resolve authReg [22] ≠ some (.error (.providerFailed 0 "x"), initState) :=
  auth_rejected_distinct.2.1 0 "x" initState

/-- C8: register fails with DuplicateProvider whenever the id is already
bound, and a successful registration binds a fresh id, leaves every other
binding untouched, and preserves distinctness of the registry keys, so two
definitions never coexist under one id and no binding is overwritten. -/
theorem register_duplicate_rejected :
    (∀ (reg : ProviderRegistry) (id : ProviderID) (d dOld : ProviderDefinition),
      alookup reg id = some dOld →
      register reg id d = .error (.duplicateProvider id)) ∧
    (∀ (reg : ProviderRegistry) (id : ProviderID) (d : ProviderDefinition)
      (reg' : ProviderRegistry),
      register reg id d = .ok reg' →
      alookup reg id = none ∧
      alookup reg' id = some d ∧
      (∀ k, k ≠ id → alookup reg' k = alookup reg k) ∧
      ((keys reg).Nodup → (keys reg').Nodup)) := by
  constructor
  · intro reg id d dOld h
    simp [register, h]
  · intro reg id d reg' h
    cases hl : alookup reg id with
    | some d0 => simp [register, hl] at h
    | none =>
      simp only [register, hl, Except.ok.injEq] at h
      subst h
      refine ⟨rfl, ?_, ?_, ?_⟩
      · rw [alookup_append_right hl]
        exact alookup_singleton_same
      · intro k hk
        cases hx : alookup reg k with
        | some w => rw [alookup_append_left hx]
        | none =>
          rw [alookup_append_right hx]
          exact alookup_singleton_ne fun hEq => hk hEq.symm
      · intro hnd
        have hmem := alookup_none_keys hl
        simp only [keys, List.map_append] at *
        rw [List.nodup_append]
        refine ⟨hnd, by simp, ?_⟩
        intro a ha hb
        simp at hb
        exact hmem (hb ▸ ha)

/-- Witness for C8 at a concrete duplicate registration. -/
theorem register_duplicate_rejected_witness :
    register [(1, dSimple)] 1 dSimple = .error (.duplicateProvider 1) :=
  register_duplicate_rejected.1 [(1, dSimple)] 1 dSimple dSimple rfl

/-- C9: the chat endpoint returns the same constant Hello World message for
every request body, so no information flows from the messages to the
response, and the concrete test input from test_main.py gets exactly the
expected response. -/
theorem chat_constant_response :
    (∀ m1 m2 : ClassInput, chat m1 = chat m2) ∧
    (∀ m : ClassInput, chat m = ⟨"Hello World"⟩) ∧
    chat ⟨[⟨"ghh", "kkl"⟩]⟩ = ⟨"Hello World"⟩ :=
  ⟨fun m1 m2 => rfl, fun m => rfl, rfl⟩
